import Mathlib

/-!
Verification of the chat-bot core (stream renderer, auto-reply engine,
message cache) against its natural-language specification.

The TypeScript sources are shallowly embedded: JS strings become `List Char`,
stateful loops become folds over explicit state records, a JS `throw` becomes
an `Except.error` / `Option` value, and the two external effectful
collaborators (the JSON parser and the regular-expression engine) become
explicit function parameters so that theorems quantify over every behaviour
the real collaborator could exhibit.
-/

/-- Character strings are modelled as lists of characters; `String.data`
turns a Lean string literal into this representation. -/
abbrev Str : Type := List Char

namespace AiTgBot

/-- JS `String.prototype.replaceAll(pat, repl)` with a plain search string:
scans left to right, replaces non-overlapping occurrences, and does not
rescan the inserted replacement.  (Used by the source as
`template.replaceAll("$username", ...)` in `src/modules/ai/tools.ts` and as
`reasoning.replaceAll("\n", "\n> ")` in `src/modules/ai/stream.ts`; in both
uses the replacement contains no special `$`-sequences, so inserting it
literally is faithful.) -/
def replaceAllFuel (pat repl : Str) : Nat → Str → Str
  | _, [] => []
  | 0, _ :: _ => []
  | fuel + 1, c :: rest =>
    if pat ≠ [] ∧ (c :: rest).take pat.length = pat then
      repl ++ replaceAllFuel pat repl fuel ((c :: rest).drop pat.length)
    else
      c :: replaceAllFuel pat repl fuel rest

/-- The scan consumes at least one character per step, so any fuel bounding
the subject length gives the same answer. -/
theorem replaceAllFuel_congr (pat repl : Str) :
    ∀ (f1 f2 : Nat) (s : Str), s.length ≤ f1 → s.length ≤ f2 →
    replaceAllFuel pat repl f1 s = replaceAllFuel pat repl f2 s := by
  intro f1
  induction f1 with
  | zero =>
    intro f2 s h1 _
    have hs : s = [] := List.eq_nil_of_length_eq_zero (Nat.le_zero.mp h1)
    subst hs
    cases f2 <;> rfl
  | succ f ih =>
    intro f2 s h1 h2
    cases s with
    | nil => cases f2 <;> rfl
    | cons c rest =>
      cases f2 with
      | zero => simp at h2
      | succ f2' =>
        simp only [List.length_cons] at h1 h2
        simp only [replaceAllFuel]
        by_cases hcond : pat ≠ [] ∧ (c :: rest).take pat.length = pat
        · simp only [if_pos hcond]
          have hp : 1 ≤ pat.length := List.length_pos.mpr hcond.1
          have hd : ((c :: rest).drop pat.length).length ≤ rest.length := by
            simp only [List.length_drop, List.length_cons]
            omega
          rw [ih f2' _ (le_trans hd (by omega)) (le_trans hd (by omega))]
        · simp only [if_neg hcond]
          rw [ih f2' rest (by omega) (by omega)]

/-- The wrapper instantiating the fuel with the subject length (which the
scan never exceeds): this is the model of `replaceAll`. -/
def replaceAll (pat repl s : Str) : Str :=
  replaceAllFuel pat repl s.length s

/-- Unfolding equation of `replaceAll` on a non-empty subject. -/
theorem replaceAll_cons (pat repl : Str) (c : Char) (s : Str) :
    replaceAll pat repl (c :: s)
      = if pat ≠ [] ∧ (c :: s).take pat.length = pat then
          repl ++ replaceAll pat repl ((c :: s).drop pat.length)
        else
          c :: replaceAll pat repl s := by
  show replaceAllFuel pat repl (c :: s).length (c :: s) = _
  simp only [List.length_cons, replaceAllFuel]
  by_cases hcond : pat ≠ [] ∧ (c :: s).take pat.length = pat
  · simp only [if_pos hcond]
    have hp : 1 ≤ pat.length := List.length_pos.mpr hcond.1
    have hd : ((c :: s).drop pat.length).length ≤ s.length := by
      simp only [List.length_drop, List.length_cons]
      omega
    rw [replaceAllFuel_congr pat repl s.length ((c :: s).drop pat.length).length _ hd le_rfl]
    rfl
  · simp only [if_neg hcond]
    rfl

/-- Dropping a prefix by a predicate never lengthens a list. -/
theorem length_dropWhile_le_self (p : Char → Bool) (l : Str) :
    (l.dropWhile p).length ≤ l.length := by
  induction l with
  | nil => simp [List.dropWhile]
  | cons c rest ih =>
    simp only [List.dropWhile]
    cases p c <;> simp only [List.length_cons] <;> omega

/-- Value of a digit-only string under JS `parseInt(s, 10)`. -/
def digitsToNat (ds : Str) : Nat :=
  ds.foldl (fun n c => n * 10 + (c.toNat - '0'.toNat)) 0

/-- Model of `message.replace(/\$(\d+)/g, (_, g1) => match[parseInt(g1, 10)] || "")`
from the AUTO REPLY handler: each `$` followed by one or more digits (greedy,
left to right, non-overlapping) is replaced by the entry of the JS match
array at that index, where an out-of-range index, a non-participating group
(`undefined`) and an empty-string group all contribute `""`; every other
character is copied unchanged. -/
def substGroupsFuel (groups : List (Option Str)) : Nat → Str → Str
  | _, [] => []
  | 0, _ :: _ => []
  | fuel + 1, c :: rest =>
    if c = '$' ∧ rest.takeWhile Char.isDigit ≠ [] then
      ((groups.getD (digitsToNat (rest.takeWhile Char.isDigit)) none).getD [])
        ++ substGroupsFuel groups fuel (rest.dropWhile Char.isDigit)
    else
      c :: substGroupsFuel groups fuel rest

/-- The scan consumes at least one character per step, so any fuel bounding
the template length gives the same answer. -/
theorem substGroupsFuel_congr (groups : List (Option Str)) :
    ∀ (f1 f2 : Nat) (s : Str), s.length ≤ f1 → s.length ≤ f2 →
    substGroupsFuel groups f1 s = substGroupsFuel groups f2 s := by
  intro f1
  induction f1 with
  | zero =>
    intro f2 s h1 _
    have hs : s = [] := List.eq_nil_of_length_eq_zero (Nat.le_zero.mp h1)
    subst hs
    cases f2 <;> rfl
  | succ f ih =>
    intro f2 s h1 h2
    cases s with
    | nil => cases f2 <;> rfl
    | cons c rest =>
      cases f2 with
      | zero => simp at h2
      | succ f2' =>
        simp only [List.length_cons] at h1 h2
        simp only [substGroupsFuel]
        by_cases hcond : c = '$' ∧ rest.takeWhile Char.isDigit ≠ []
        · simp only [if_pos hcond]
          have hd : (rest.dropWhile Char.isDigit).length ≤ rest.length :=
            length_dropWhile_le_self _ _
          rw [ih f2' _ (le_trans hd (by omega)) (le_trans hd (by omega))]
        · simp only [if_neg hcond]
          rw [ih f2' rest (by omega) (by omega)]

/-- The wrapper instantiating the fuel with the template length: this is the
model of the capture-group substitution. -/
def substGroups (groups : List (Option Str)) (s : Str) : Str :=
  substGroupsFuel groups s.length s

/-- Unfolding equation of `substGroups` on a non-empty template. -/
theorem substGroups_cons (groups : List (Option Str)) (c : Char) (s : Str) :
    substGroups groups (c :: s)
      = if c = '$' ∧ s.takeWhile Char.isDigit ≠ [] then
          ((groups.getD (digitsToNat (s.takeWhile Char.isDigit)) none).getD [])
            ++ substGroups groups (s.dropWhile Char.isDigit)
        else
          c :: substGroups groups s := by
  show substGroupsFuel groups (c :: s).length (c :: s) = _
  simp only [List.length_cons, substGroupsFuel]
  by_cases hcond : c = '$' ∧ s.takeWhile Char.isDigit ≠ []
  · simp only [if_pos hcond]
    have hd : (s.dropWhile Char.isDigit).length ≤ s.length :=
      length_dropWhile_le_self _ _
    rw [substGroupsFuel_congr groups s.length (s.dropWhile Char.isDigit).length _ hd le_rfl]
    rfl
  · simp only [if_neg hcond]
    rfl

/-- An incoming chat message as the auto-reply code uses it: its text and its
sender's handle (`from.username`, optional) and display name
(`from.first_name`).  The sender object itself is assumed present, as it is
for the group messages the bot handles. -/
structure TgMsg where
  text : Str
  username : Option Str
  first_name : Str

/-- The string interpolated for `msg.from?.username || msg.from?.first_name`:
JS `||` treats the empty string as falsy, so an empty handle also falls back
to the display name. -/
def handleOf (m : TgMsg) : Str :=
  match m.username with
  | some u => if u = [] then m.first_name else u
  | none => m.first_name

/-- `replaceMessage` from `src/modules/ai/tools.ts`: replaces every
occurrence of `"$username"` in the template by `"@" + (username || first_name)`
(the `@` sign is prepended in both branches). -/
def replaceMessage (m : TgMsg) (template : Str) : Str :=
  replaceAll ("$username".data) ('@' :: handleOf m) template

/-- JSON values, for modelling rows stored by the `auto_reply` tool. -/
inductive Json where
  | null
  | jbool (b : Bool)
  | jnum (n : Int)
  | jstr (s : Str)
  | jarr (elems : List Json)
  | jobj (fields : List (Str × Json))

/-- A stored auto-reply rule as validated by `AutoReplySchema`
(`z.object({ kind: z.literal("auto_reply"), when: z.string(), message: z.string() })`). -/
structure AutoReply where
  whenPat : Str
  message : Str

/-- Result of `AutoReplySchema.safeParseAsync` on an optional JSON value
(`none` stands for JS `undefined`, which the object schema rejects): succeeds
exactly on objects whose `kind` field is the string `"auto_reply"` and whose
`when` and `message` fields are strings. -/
def parseAutoReply : Option Json → Option AutoReply
  | some (Json.jobj fields) =>
    match List.lookup ("kind".data) fields, List.lookup ("when".data) fields,
        List.lookup ("message".data) fields with
    | some (Json.jstr k), some (Json.jstr w), some (Json.jstr m) =>
      if k = "auto_reply".data then some ⟨w, m⟩ else none
    | _, _, _ => none
  | _ => none

/-- `parseJSONSafe` from the json helper module: `JSON.parse` is modelled by
an arbitrary function `jp` into `Except` (a JS throw is an `Except.error`);
the `try`/`catch` turns a throw into `{ ok: false }`, here `none`.  The
result is total for every input string and every behaviour of `jp`. -/
def parseJSONSafe (jp : Str → Except Unit Json) (s : Str) : Option Json :=
  match jp s with
  | Except.ok v => some v
  | Except.error _ => none

/-- `safeJsonParseAsync(AutoReplySchema, s)` from the json helper module: on a
JSON parse failure the schema is fed `undefined` (which it rejects), otherwise
the parsed value is validated. -/
def safeJsonParse (jp : Str → Except Unit Json) (s : Str) : Option AutoReply :=
  parseAutoReply (parseJSONSafe jp s)

/-- A JS regular-expression engine, abstracted: `new RegExp(p, "i")` either
throws (`none`, e.g. for the pattern `"("`) or yields a compiled regex,
itself modelled by its match behaviour on a subject string: `none` when
`subject.match(regex)` is `null`, or `some groups` for the JS match array
(index 0 holds the full match, later entries the capture groups, with `none`
for a non-participating group). -/
abbrev RegexEngine : Type := Str → Option (Str → Option (List (Option Str)))

/-- The reply text the AUTO REPLY handler sends for one matching rule:
capture-group substitution on the template first, then `replaceMessage`. -/
def renderReply (m : TgMsg) (template : Str) (groups : List (Option Str)) : Str :=
  replaceMessage m (substGroups groups template)

/-- The AUTO REPLY `message` handler of the Ai module, applied to the stored
rows of one chat in storage order.  A row whose value fails JSON-plus-schema
parsing (`execRes.success` false) is skipped.  For a parsed rule,
`new RegExp(when, "i")` may throw, which escapes the `for` loop: the second
component becomes `some ()` and no later row is evaluated.  Otherwise the
rule's pattern is matched against the message text (skipped when the text is
falsy) and a match appends one reply.  The first component lists the replies
actually sent, in order. -/
def runAutoReply (jp : Str → Except Unit Json) (eng : RegexEngine) (m : TgMsg) :
    List Str → List Str × Option Unit
  | [] => ([], none)
  | v :: rest =>
    match safeJsonParse jp v with
    | none => runAutoReply jp eng m rest
    | some rule =>
      match eng rule.whenPat with
      | none => ([], some ())
      | some matcher =>
        match (if m.text ≠ [] then matcher m.text else none) with
        | none => runAutoReply jp eng m rest
        | some groups =>
          let res := runAutoReply jp eng m rest
          (renderReply m rule.message groups :: res.1, res.2)

/-- The per-row contribution of the AUTO REPLY handler, computed from that
row alone: `some reply` when the row parses, its pattern compiles, and it
matches the message; `none` otherwise. -/
def replyOf (jp : Str → Except Unit Json) (eng : RegexEngine) (m : TgMsg)
    (v : Str) : Option Str :=
  match safeJsonParse jp v with
  | none => none
  | some rule =>
    match eng rule.whenPat with
    | none => none
    | some matcher =>
      match (if m.text ≠ [] then matcher m.text else none) with
      | none => none
      | some groups => some (renderReply m rule.message groups)

/-- Configuration passed to `streamToTelegramText` in
`src/modules/ai/stream.ts`. -/
structure StreamCfg where
  show_reasoning : Bool

/-- The typed delta events of `stream.fullStream` that the renderer consumes. -/
inductive Chunk where
  | abort
  | reasoningDelta (t : Str)
  | textDelta (t : Str)
  | toolInputStart (toolName : Str)
  | toolInputDelta (delta : Str)
  | toolInputEnd
  | toolCall
  | startStep
  | other

/-- The mutable locals of `streamToTelegramText` that the `switch` statement
updates (the throttle locals `lastSentText` / `lastEditTime` are threaded
separately by the run function). -/
structure StreamState where
  aborted : Bool
  currentReasoning : Str
  currentText : Str
  currentTool : Str
  toolHistory : Str → Option Str

/-- The locals as declared at the top of `streamToTelegramText`. -/
def startState : StreamState :=
  ⟨false, [], [], [], fun _ => none⟩

/-- JS object property assignment `toolHistory[k] = v`. -/
def setTool (h : Str → Option Str) (k : Str) (v : Str) : Str → Option Str :=
  fun q => if q = k then some v else h q

/-- The notice appended to the answer text on `tool-input-start`. -/
def toolNotice (toolName : Str) : Str :=
  "\n(正在使用工具: ".data ++ toolName ++ ")".data

/-- One iteration of the `switch (chunk.type)` statement.  On
`tool-input-delta`, `toolHistory[currentTool] += delta` reads a possibly
missing property, which JS coerces to the string `"undefined"`. -/
def step (st : StreamState) : Chunk → StreamState
  | Chunk.abort => { st with aborted := true }
  | Chunk.reasoningDelta t => { st with currentReasoning := st.currentReasoning ++ t }
  | Chunk.textDelta t => { st with currentText := st.currentText ++ t }
  | Chunk.toolInputStart toolName =>
    { st with
      currentText := st.currentText ++ toolNotice toolName
      currentTool := toolName
      toolHistory := setTool st.toolHistory toolName [] }
  | Chunk.toolInputDelta d =>
    { st with
      toolHistory := setTool st.toolHistory st.currentTool
        (((st.toolHistory st.currentTool).getD ("undefined".data)) ++ d) }
  | Chunk.toolInputEnd => { st with currentTool := [] }
  | Chunk.toolCall => st
  | Chunk.startStep => st
  | Chunk.other => st

/-- JS `String.prototype.trim()` (both ends, whitespace). -/
def jsTrim (s : Str) : Str :=
  ((s.dropWhile Char.isWhitespace).reverse.dropWhile Char.isWhitespace).reverse

/-- `generateTextToSend` from `streamToTelegramText`: quoted reasoning block
(when non-empty after trimming, not the redaction sentinel, and reasoning
display is enabled), then the answer text, then — while a tool is active —
its raw arguments as a fenced code block; the placeholder `"(...)"` when
everything is empty. -/
def generateTextToSend (cfg : StreamCfg) (st : StreamState) : Str :=
  let reasoning := jsTrim st.currentReasoning
  let txt :=
    (if reasoning ≠ [] ∧ reasoning ≠ "[REDACTED]".data ∧ cfg.show_reasoning then
      "> ".data ++ replaceAll ("\n".data) ("\n> ".data) reasoning ++ "\n\n".data
    else [])
    ++ st.currentText
    ++ (if st.currentTool ≠ [] then
        "\n```json\n".data
          ++ ((st.toolHistory st.currentTool).getD ("undefined".data))
          ++ "\n```".data
      else [])
  if txt = [] then "(...)".data else txt

/-- State evolution of the consumption loop: each chunk is fed to `step`,
and `if (aborted) break` stops consumption right after the chunk that sets
the flag. -/
def consume (st : StreamState) : List Chunk → StreamState
  | [] => st
  | c :: rest =>
    let st' := step st c
    if st'.aborted then st' else consume st' rest

/-- One call to the delivery sink `onUpdate(text, final)`: the text sent,
the final flag, the value of `Date.now()` at the call for a throttled
delivery (`none` for the final call, which reads no clock), and whether the
call returned normally (`ok = false` models a JS throw). -/
structure Delivery where
  text : Str
  final : Bool
  time : Option Int
  ok : Bool

/-- The trailing `await onUpdate(generateTextToSend(), true)`: the mandatory
final delivery, whose failure propagates. -/
def finalize (cfg : StreamCfg) (sinkFails : Nat → Bool) (st : StreamState)
    (k : Nat) : List Delivery × Except Unit Unit :=
  let txt := generateTextToSend cfg st
  if sinkFails k then ([⟨txt, true, none, false⟩], Except.error ())
  else ([⟨txt, true, none, true⟩], Except.ok ())

/-- The `for await` loop of `streamToTelegramText` followed by the final
delivery.  Each event carries the value `Date.now()` reads at that
iteration.  The sink is fallible: `sinkFails k` tells whether the `k`-th
call to `onUpdate` throws.  Returns every sink call made, in order, and
`Except.error ()` when a throw escaped the function.  A non-final throw is
not caught anywhere in the source, so it ends the run at once. -/
def runFrom (cfg : StreamCfg) (sinkFails : Nat → Bool) :
    List (Chunk × Int) → StreamState → Str → Int → Nat →
    List Delivery × Except Unit Unit
  | [], st, _, _, k => finalize cfg sinkFails st k
  | (c, now) :: rest, st, lastSent, lastEdit, k =>
    let st' := step st c
    if st'.aborted then finalize cfg sinkFails st' k
    else
      let txt := generateTextToSend cfg st'
      if 50 ≤ (txt.length : Int) - (lastSent.length : Int) ∧ 6000 ≤ now - lastEdit then
        if sinkFails k then ([⟨txt, false, some now, false⟩], Except.error ())
        else
          let res := runFrom cfg sinkFails rest st' txt now (k + 1)
          (⟨txt, false, some now, true⟩ :: res.1, res.2)
      else runFrom cfg sinkFails rest st' lastSent lastEdit k

/-- A whole run of `streamToTelegramText` on an event sequence, starting
from the declared initial locals. -/
def runStream (cfg : StreamCfg) (sinkFails : Nat → Bool)
    (events : List (Chunk × Int)) : List Delivery × Except Unit Unit :=
  runFrom cfg sinkFails events startState [] 0 0

/-- A delivery sink that never throws. -/
def sinkOk : Nat → Bool := fun _ => false

/-- The sender object of a Telegram message (`message.from`). -/
structure Sender where
  id : Int
  username : Option Str
  first_name : Str
  last_name : Option Str

/-- An incoming `TelegramBot.Message` as `MessageCache.addMessage` reads it
(`sender` models the `from` property, a Lean keyword). -/
structure InMsg where
  message_id : Int
  date : Int
  sender : Option Sender
  text : Option Str

/-- A `CachedMessage` row from `src/lib/message-cache.ts`. -/
structure CachedMessage where
  message_id : Int
  from_id : Int
  from_username : Option Str
  from_first_name : Str
  from_last_name : Option Str
  text : Str
  timestamp : Int

/-- The `MessageCache` class state: the `Map` from chat id to message list
(entries kept in insertion order, as a JS `Map` does) and the current
`maxWindow`. -/
structure MessageCache where
  entries : List (Int × List CachedMessage)
  maxWindow : Nat

/-- JS `Map.prototype.set`: update in place when the key exists, append
otherwise. -/
def mapSet (entries : List (Int × List CachedMessage)) (k : Int)
    (v : List CachedMessage) : List (Int × List CachedMessage) :=
  if entries.any (fun e => decide (e.1 = k)) then
    entries.map (fun e => if e.1 = k then (k, v) else e)
  else entries ++ [(k, v)]

/-- `new MessageCache(maxWindow)`. -/
def emptyCache (maxWindow : Nat) : MessageCache :=
  ⟨[], maxWindow⟩

/-- JS `messages.slice(-n)` for a non-negative `n` as the source computes it:
for positive `n` the last `min n (length)` elements, but for `n = 0` the
argument is `-0`, which `slice` treats as `0`, returning the whole array. -/
def jsSliceNeg (n : Nat) (l : List CachedMessage) : List CachedMessage :=
  if n = 0 then l else l.drop (l.length - n)

/-- `MessageCache.addMessage`: returns unchanged when `from` or `text` is
falsy (including empty text), otherwise pushes the cached row and `shift`s
one element off the front when the buffer exceeds `maxWindow`. -/
def addMessage (cache : MessageCache) (chatId : Int) (m : InMsg) : MessageCache :=
  match m.sender, m.text with
  | some s, some t =>
    if t = [] then cache
    else
      let cached : CachedMessage :=
        ⟨m.message_id, s.id, s.username, s.first_name, s.last_name, t, m.date * 1000⟩
      let messages := ((List.lookup chatId cache.entries).getD []) ++ [cached]
      let messages := if cache.maxWindow < messages.length then messages.tail else messages
      { cache with entries := mapSet cache.entries chatId messages }
  | _, _ => cache

/-- `MessageCache.getMessages`. -/
def getMessages (cache : MessageCache) (chatId : Int) : List CachedMessage :=
  (List.lookup chatId cache.entries).getD []

/-- `MessageCache.setMaxWindow`: stores the new maximum and re-slices every
chat's buffer that is longer than it with `slice(-maxWindow)`. -/
def setMaxWindow (cache : MessageCache) (n : Nat) : MessageCache :=
  ⟨cache.entries.map (fun e => if n < e.2.length then (e.1, jsSliceNeg n e.2) else e), n⟩

/-- One externally visible cache operation, for stating trace invariants. -/
inductive CacheOp where
  | add (chatId : Int) (m : InMsg)
  | setMax (n : Nat)

/-- Apply one cache operation. -/
def applyOp (cache : MessageCache) : CacheOp → MessageCache
  | CacheOp.add chatId m => addMessage cache chatId m
  | CacheOp.setMax n => setMaxWindow cache n

/-- Apply a sequence of cache operations in order. -/
def applyOps (cache : MessageCache) (ops : List CacheOp) : MessageCache :=
  ops.foldl applyOp cache

end AiTgBot

namespace AiTgBot

/-- With a never-failing sink the run consists of throttled deliveries
followed by exactly one final delivery, whose text renders the state reached
by consuming the events, and no error escapes. -/
theorem runFrom_sinkOk_spec (cfg : StreamCfg) (evs : List (Chunk × Int)) :
    ∀ (st : StreamState) (lastSent : Str) (lastEdit : Int) (k : Nat),
    ∃ pre,
      (runFrom cfg sinkOk evs st lastSent lastEdit k).1
        = pre ++ [⟨generateTextToSend cfg (consume st (evs.map Prod.fst)), true, none, true⟩]
      ∧ (∀ d ∈ pre, d.final = false)
      ∧ (runFrom cfg sinkOk evs st lastSent lastEdit k).2 = Except.ok () := by
  induction evs with
  | nil =>
    intro st lastSent lastEdit k
    exact ⟨[], rfl, by simp, rfl⟩
  | cons ev rest ih =>
    intro st lastSent lastEdit k
    obtain ⟨c, now⟩ := ev
    simp only [runFrom, consume, List.map_cons, finalize, sinkOk]
    by_cases hA : (step st c).aborted = true
    · simp only [hA, if_true, if_false]
      exact ⟨[], rfl, by simp, rfl⟩
    · simp only [hA, if_false, Bool.false_eq_true]
      split
      · obtain ⟨pre, h1, h2, h3⟩ := ih (step st c) (generateTextToSend cfg (step st c)) now (k + 1)
        refine ⟨⟨generateTextToSend cfg (step st c), false, some now, true⟩ :: pre, ?_, ?_, ?_⟩
        · simp [h1]
        · intro d hd
          rcases List.mem_cons.mp hd with h | h
          · simp [h]
          · exact h2 d h
        · exact h3
      · exact ih (step st c) lastSent lastEdit k

end AiTgBot

namespace AiTgBot

/-- C1.  For every finite event sequence consumed by `streamToTelegramText`
with a sink that does not throw, exactly one delivery carries the final
flag; it is the last delivery, and its content is `generateTextToSend`
applied to the buffers as accumulated by consuming the whole sequence
(consumption stops right after an `abort` event, so on abort the snapshot is
the one at the abort).  In particular the empty event sequence produces
exactly the single final delivery with the placeholder text `"(...)"`. -/
theorem stream_exactly_one_final_delivery (cfg : StreamCfg)
    (events : List (Chunk × Int)) :
    ((runStream cfg sinkOk events).1.countP (fun d => d.final)) = 1
    ∧ (runStream cfg sinkOk events).1.getLast?
        = some ⟨generateTextToSend cfg (consume startState (events.map Prod.fst)),
            true, none, true⟩
    ∧ (runStream cfg sinkOk events).2 = Except.ok ()
    ∧ runStream cfg sinkOk [] = ([⟨"(...)".data, true, none, true⟩], Except.ok ()) := by
  obtain ⟨pre, h1, h2, h3⟩ :=
    runFrom_sinkOk_spec cfg events startState [] 0 0
  refine ⟨?_, ?_, h3, by rfl⟩
  · unfold runStream
    rw [h1, List.countP_append]
    have hzero : pre.countP (fun d => d.final) = 0 := by
      rw [List.countP_eq_zero]
      intro d hd
      simp [h2 d hd]
    simp [hzero]
  · unfold runStream
    rw [h1, List.getLast?_concat]

end AiTgBot

namespace AiTgBot

/-- The throttle-gate relation between two successive throttled deliveries:
both carry a clock reading, at least 6000 ms apart, and the snapshot length
grew by at least 50 characters. -/
def gateRel (c1 c2 : Delivery) : Prop :=
  ∃ t1 t2, c1.time = some t1 ∧ c2.time = some t2 ∧ 6000 ≤ t2 - t1
    ∧ 50 ≤ (c2.text.length : Int) - (c1.text.length : Int)

/-- Every non-final delivery of a run from an intermediate loop state
satisfies the gate relative to the previous delivery, starting from the
current `lastSentText` / `lastEditTime` pair. -/
theorem runFrom_gate (cfg : StreamCfg) (sf : Nat → Bool)
    (evs : List (Chunk × Int)) :
    ∀ (st : StreamState) (lastSent : Str) (lastEdit : Int) (k : Nat),
    List.Chain' gateRel
      (⟨lastSent, false, some lastEdit, true⟩
        :: (runFrom cfg sf evs st lastSent lastEdit k).1.filter (fun d => !d.final)) := by
  induction evs with
  | nil =>
    intro st lastSent lastEdit k
    simp only [runFrom, finalize]
    split <;> simp
  | cons ev rest ih =>
    intro st lastSent lastEdit k
    obtain ⟨c, now⟩ := ev
    simp only [runFrom]
    by_cases hA : (step st c).aborted = true
    · simp only [hA, if_true, finalize]
      split <;> simp
    · simp only [hA, Bool.false_eq_true, if_false]
      split
      · rename_i hGate
        by_cases hS : sf k = true
        · simp only [hS, if_true, List.filter]
          refine List.chain'_cons.mpr ⟨?_, ?_⟩
          · exact ⟨lastEdit, now, rfl, rfl, hGate.2, hGate.1⟩
          · simp
        · simp only [hS, Bool.false_eq_true, if_false]
          have hch := ih (step st c) (generateTextToSend cfg (step st c)) now (k + 1)
          simp only [List.filter_cons, Bool.not_false, if_true]
          refine List.chain'_cons.mpr ⟨?_, ?_⟩
          · exact ⟨lastEdit, now, rfl, rfl, hGate.2, hGate.1⟩
          · exact hch
      · exact ih (step st c) lastSent lastEdit k

/-- C4.  For every event sequence (and any sink behaviour), the non-final
deliveries of `streamToTelegramText` extend the chain that starts from the
initial `lastSentText = ""` / `lastEditTime = 0` pair: each one was emitted
only when the snapshot length had grown by at least 50 characters and at
least 6000 ms had elapsed since the previous delivery; consequently adjacent
non-final deliveries are at least 6000 ms apart and each grows the last
delivered snapshot by at least 50 characters. -/
theorem stream_throttle_gate (cfg : StreamCfg) (sf : Nat → Bool)
    (events : List (Chunk × Int)) :
    List.Chain' gateRel
      (⟨[], false, some 0, true⟩
        :: (runStream cfg sf events).1.filter (fun d => !d.final)) :=
  runFrom_gate cfg sf events startState [] 0 0

end AiTgBot


namespace AiTgBot

/-- A list with exactly one element decomposes only trivially. -/
theorem singleton_eq_append_cons {α : Type} (x d : α) (pre post : List α)
    (h : [x] = pre ++ d :: post) : pre = [] ∧ d = x ∧ post = [] := by
  rcases pre with _ | ⟨y, pre'⟩
  · rw [List.nil_append] at h
    injection h with h1 h2
    exact ⟨rfl, h1.symm, h2.symm⟩
  · exfalso
    rw [List.cons_append] at h
    injection h with h1 h2
    have hl := congrArg List.length h2
    simp only [List.length_nil, List.length_append, List.length_cons] at hl
    omega

/-- A throw during the mandatory final delivery makes that single delivery
the whole tail and the error escape. -/
theorem finalize_error_stops (cfg : StreamCfg) (sf : Nat → Bool)
    (st : StreamState) (k : Nat) (pre : List Delivery) (d : Delivery)
    (post : List Delivery)
    (h1 : (finalize cfg sf st k).1 = pre ++ d :: post) (h2 : d.ok = false) :
    post = [] ∧ (finalize cfg sf st k).2 = Except.error () := by
  by_cases hS : sf k = true
  · have hres : finalize cfg sf st k
        = ([⟨generateTextToSend cfg st, true, none, false⟩], Except.error ()) := by
      simp [finalize, hS]
    rw [hres] at h1 ⊢
    replace h1 : [(⟨generateTextToSend cfg st, true, none, false⟩ : Delivery)]
        = pre ++ d :: post := h1
    exact ⟨(singleton_eq_append_cons _ _ _ _ h1).2.2, rfl⟩
  · exfalso
    have hres : finalize cfg sf st k
        = ([⟨generateTextToSend cfg st, true, none, true⟩], Except.ok ()) := by
      simp [finalize, hS]
    rw [hres] at h1
    replace h1 : [(⟨generateTextToSend cfg st, true, none, true⟩ : Delivery)]
        = pre ++ d :: post := h1
    have hd := (singleton_eq_append_cons _ _ _ _ h1).2.1
    rw [hd] at h2
    simp at h2

/-- Any delivery on which the sink throws is the last sink call of the run,
and the run's result is the escaping error. -/
theorem runFrom_error_stops (cfg : StreamCfg) (sf : Nat → Bool)
    (evs : List (Chunk × Int)) :
    ∀ (st : StreamState) (lastSent : Str) (lastEdit : Int) (k : Nat)
      (pre : List Delivery) (d : Delivery) (post : List Delivery),
    (runFrom cfg sf evs st lastSent lastEdit k).1 = pre ++ d :: post →
    d.ok = false →
    post = [] ∧ (runFrom cfg sf evs st lastSent lastEdit k).2 = Except.error () := by
  induction evs with
  | nil =>
    intro st lastSent lastEdit k pre d post h1 h2
    exact finalize_error_stops cfg sf st k pre d post h1 h2
  | cons ev rest ih =>
    intro st lastSent lastEdit k pre d post h1 h2
    obtain ⟨c, now⟩ := ev
    by_cases hA : (step st c).aborted = true
    · have hru : runFrom cfg sf ((c, now) :: rest) st lastSent lastEdit k
          = finalize cfg sf (step st c) k := by
        simp [runFrom, hA]
      rw [hru] at h1 ⊢
      exact finalize_error_stops cfg sf (step st c) k pre d post h1 h2
    · by_cases hGate : 50 ≤ ((generateTextToSend cfg (step st c)).length : Int)
          - (lastSent.length : Int) ∧ 6000 ≤ now - lastEdit
      · by_cases hS : sf k = true
        · have hru : runFrom cfg sf ((c, now) :: rest) st lastSent lastEdit k
              = ([⟨generateTextToSend cfg (step st c), false, some now, false⟩],
                  Except.error ()) := by
            simp [runFrom, hA, hGate, hS]
          rw [hru] at h1 ⊢
          replace h1 : [(⟨generateTextToSend cfg (step st c), false, some now, false⟩
              : Delivery)] = pre ++ d :: post := h1
          exact ⟨(singleton_eq_append_cons _ _ _ _ h1).2.2, rfl⟩
        · have hru : runFrom cfg sf ((c, now) :: rest) st lastSent lastEdit k
              = (⟨generateTextToSend cfg (step st c), false, some now, true⟩
                  :: (runFrom cfg sf rest (step st c)
                      (generateTextToSend cfg (step st c)) now (k + 1)).1,
                (runFrom cfg sf rest (step st c)
                  (generateTextToSend cfg (step st c)) now (k + 1)).2) := by
            simp [runFrom, hA, hGate, hS]
          rw [hru] at h1 ⊢
          rcases pre with _ | ⟨y, pre'⟩
          · exfalso
            replace h1 : ⟨generateTextToSend cfg (step st c), false, some now, true⟩
                :: (runFrom cfg sf rest (step st c)
                    (generateTextToSend cfg (step st c)) now (k + 1)).1
                = d :: post := h1
            injection h1 with hh _
            rw [← hh] at h2
            simp at h2
          · replace h1 : ⟨generateTextToSend cfg (step st c), false, some now, true⟩
                :: (runFrom cfg sf rest (step st c)
                    (generateTextToSend cfg (step st c)) now (k + 1)).1
                = y :: (pre' ++ d :: post) := h1
            injection h1 with _ htail
            exact ih (step st c) (generateTextToSend cfg (step st c)) now (k + 1)
              pre' d post htail h2
      · have hru : runFrom cfg sf ((c, now) :: rest) st lastSent lastEdit k
            = runFrom cfg sf rest (step st c) lastSent lastEdit k := by
          simp [runFrom, hA, hGate]
        rw [hru] at h1 ⊢
        exact ih (step st c) lastSent lastEdit k pre d post h1 h2

end AiTgBot

namespace AiTgBot

/-- A delivery sink that throws on every call. -/
def sinkAlwaysFails : Nat → Bool := fun _ => true

/-- Event sequence exhibiting a throw during a throttled delivery: the first
event passes the gate (50 new characters at time 6000) and a second event
with more text follows. -/
def failDemoEvents : List (Chunk × Int) :=
  [(Chunk.textDelta (List.replicate 50 'a'), 6000),
   (Chunk.textDelta (List.replicate 60 'b'), 20000)]

/-- C3 counterexample.  With a sink that throws, the run over
`failDemoEvents` makes exactly one sink call — the throttled non-final
delivery, which fails — and the error escapes: the second event is not
consumed, no later delivery happens and no final delivery is ever made,
refuting the claim that a throw during a non-final delivery does not stop
event consumption. -/
theorem stream_nonfinal_sink_error_counterexample :
    runStream ⟨true⟩ sinkAlwaysFails failDemoEvents
      = ([⟨List.replicate 50 'a', false, some 6000, false⟩], Except.error ())
    ∧ (runStream ⟨true⟩ sinkAlwaysFails failDemoEvents).1.countP
        (fun d => d.final) = 0 :=
  ⟨rfl, rfl⟩

/-- C3 amended.  Whenever the sink throws on some delivery — final or not —
that delivery is the last sink call of the run and the error escapes
`streamToTelegramText`: a throw during a non-final delivery stops event
consumption (no later delivery occurs, in particular no final one), and a
throw during the final delivery propagates to the caller as well. -/
theorem stream_sink_error_is_fatal (cfg : StreamCfg) (sf : Nat → Bool)
    (events : List (Chunk × Int)) (pre : List Delivery) (d : Delivery)
    (post : List Delivery)
    (h1 : (runStream cfg sf events).1 = pre ++ d :: post)
    (h2 : d.ok = false) :
    post = [] ∧ (runStream cfg sf events).2 = Except.error () :=
  runFrom_error_stops cfg sf events startState [] 0 0 pre d post h1 h2

/-- Witness for `stream_sink_error_is_fatal` at the concrete failing run. -/
theorem stream_sink_error_is_fatal_witness :
    ([] : List Delivery) = []
    ∧ (runStream ⟨true⟩ sinkAlwaysFails failDemoEvents).2 = Except.error () :=
  stream_sink_error_is_fatal ⟨true⟩ sinkAlwaysFails failDemoEvents
    [] ⟨List.replicate 50 'a', false, some 6000, false⟩ [] rfl rfl

/-- Each event only appends to the reasoning and answer-text buffers. -/
theorem step_buffers_grow (st : StreamState) (c : Chunk) :
    st.currentReasoning <+: (step st c).currentReasoning
    ∧ st.currentText <+: (step st c).currentText := by
  cases c <;> simp [step]

/-- Over any further event sequence, the reasoning and answer-text buffers
only grow: the earlier buffer is a prefix of the later one. -/
theorem consume_buffers_grow (evs : List Chunk) :
    ∀ (st : StreamState),
    st.currentReasoning <+: (consume st evs).currentReasoning
    ∧ st.currentText <+: (consume st evs).currentText := by
  induction evs with
  | nil => intro st; exact ⟨List.prefix_refl _, List.prefix_refl _⟩
  | cons c rest ih =>
    intro st
    simp only [consume]
    by_cases hA : (step st c).aborted = true
    · simp only [hA, if_true]
      exact step_buffers_grow st c
    · simp only [hA, Bool.false_eq_true, if_false]
      obtain ⟨hr1, ht1⟩ := step_buffers_grow st c
      obtain ⟨hr2, ht2⟩ := ih (step st c)
      exact ⟨hr1.trans hr2, ht1.trans ht2⟩

/-- C5 counterexample.  The rendered display string is not monotone: after
`tool-input-start "t"` and `tool-input-delta "abcd"` the snapshot shows the
fenced argument block, and the very next event `tool-input-end` removes that
block, so the snapshot of the later event is strictly shorter than the
snapshot of the earlier one (hence also not an extension of it). -/
theorem snapshot_not_monotone_counterexample :
    (generateTextToSend ⟨true⟩ (consume startState
        [Chunk.toolInputStart ("t".data), Chunk.toolInputDelta ("abcd".data),
          Chunk.toolInputEnd])).length
      < (generateTextToSend ⟨true⟩ (consume startState
        [Chunk.toolInputStart ("t".data), Chunk.toolInputDelta ("abcd".data)])).length := by
  decide

/-- C5 amended.  What grows monotonically over the event sequence are the
underlying buffers, not the rendered snapshot: after any consecutive events
of one generation the earlier reasoning buffer and the earlier answer-text
buffer are prefixes of the later ones, while the rendered snapshot itself
may shrink (see the tool-input-end counterexample). -/
theorem stream_buffers_monotone (st : StreamState) (evs : List Chunk) :
    st.currentReasoning <+: (consume st evs).currentReasoning
    ∧ st.currentText <+: (consume st evs).currentText :=
  consume_buffers_grow evs st

end AiTgBot

namespace AiTgBot

/-- Anything contained in the middle list is contained in the padded list,
also after the placeholder guard (which cannot fire, the middle list being
non-empty). -/
theorem mem_wrap_snapshot (A B M ph l : Str) (hne : l ≠ [])
    (h : l <:+: M) : l <:+: (if A ++ M ++ B = [] then ph else A ++ M ++ B) := by
  obtain ⟨u, v, huv⟩ := h
  have hMne : M ≠ [] := by
    rintro rfl
    rcases List.append_eq_nil.mp huv with ⟨h1, -⟩
    exact hne (List.append_eq_nil.mp h1).2
  have hne2 : A ++ M ++ B ≠ [] := by
    intro h0
    rcases List.append_eq_nil.mp h0 with ⟨h1, -⟩
    exact hMne (List.append_eq_nil.mp h1).2
  rw [if_neg hne2]
  refine ⟨A ++ u, v ++ B, ?_⟩
  rw [← huv]
  simp [List.append_assoc]

/-- A non-empty piece of the answer-text buffer shows up in the rendered
snapshot (so the snapshot is never the bare placeholder then). -/
theorem contained_in_snapshot (cfg : StreamCfg) (st : StreamState) (l : Str)
    (hne : l ≠ []) (h : l <:+: st.currentText) :
    l <:+: generateTextToSend cfg st := by
  simp only [generateTextToSend]
  exact mem_wrap_snapshot _ _ _ _ l hne h

/-- C9.  A `tool-input-start(name)` event appends the visible notice
`"\n(正在使用工具: name)"` to the answer-text buffer permanently: after any
further events of the generation (including `tool-input-end`, which removes
the fenced argument block) the notice is still contained in the answer-text
buffer and in the rendered snapshot — hence also in the final delivery,
whose content is the snapshot of the fully consumed sequence. -/
theorem tool_notice_persists (cfg : StreamCfg) (st : StreamState)
    (toolName : Str) (rest : List Chunk) :
    toolNotice toolName
      <:+: (consume (step st (Chunk.toolInputStart toolName)) rest).currentText
    ∧ toolNotice toolName
      <:+: generateTextToSend cfg
        (consume (step st (Chunk.toolInputStart toolName)) rest) := by
  have h1 : toolNotice toolName
      <:+: (step st (Chunk.toolInputStart toolName)).currentText := by
    refine ⟨st.currentText, [], ?_⟩
    simp [step]
  obtain ⟨w, hw⟩ :=
    (consume_buffers_grow rest (step st (Chunk.toolInputStart toolName))).2
  obtain ⟨u, v, huv⟩ := h1
  have h3 : toolNotice toolName
      <:+: (consume (step st (Chunk.toolInputStart toolName)) rest).currentText := by
    refine ⟨u, v ++ w, ?_⟩
    rw [← hw, ← huv]
    simp [List.append_assoc]
  have hne : toolNotice toolName ≠ [] := by simp [toolNotice]
  exact ⟨h3, contained_in_snapshot cfg _ _ hne h3⟩

end AiTgBot

namespace AiTgBot

/-- C10.  A stored row whose value fails JSON parsing or schema validation
is transparent to the AUTO REPLY evaluation: the parse step is total (the
`try`/`catch` in `parseJSONSafe` converts any `JSON.parse` throw into a
failure value, for every input string and every parser behaviour `jp`), the
errored row triggers no reply and no error, and the evaluation of the
remaining rows is exactly the evaluation without that row. -/
theorem unparsable_row_is_transparent (jp : Str → Except Unit Json)
    (eng : RegexEngine) (m : TgMsg) (pre : List Str) (bad : Str)
    (rest : List Str) (h : safeJsonParse jp bad = none) :
    runAutoReply jp eng m (pre ++ bad :: rest)
      = runAutoReply jp eng m (pre ++ rest) := by
  induction pre with
  | nil => simp only [List.nil_append, runAutoReply, h]
  | cons w pre' ih =>
    cases hw : safeJsonParse jp w with
    | none =>
      simp only [List.cons_append, runAutoReply, hw]
      exact ih
    | some rule =>
      cases he : eng rule.whenPat with
      | none => simp only [List.cons_append, runAutoReply, hw, he]
      | some matcher =>
        cases hm : (if m.text ≠ [] then matcher m.text else none) with
        | none =>
          simp only [List.cons_append, runAutoReply, hw, he, hm]
          exact ih
        | some groups =>
          simp only [List.cons_append, runAutoReply, hw, he, hm, List.append_eq]
          rw [ih]

/-- A toy JSON parser covering the rows used in concrete runs: `"good"` and
`"good2"` are well-formed rules with compilable patterns, `"bad"` is a
well-formed rule whose pattern `"("` does not compile, and anything else is
a JSON parse error. -/
def jpToy : Str → Except Unit Json := fun s =>
  if s = "good".data then
    Except.ok (Json.jobj [("kind".data, Json.jstr ("auto_reply".data)),
      ("when".data, Json.jstr ("a".data)),
      ("message".data, Json.jstr ("$username".data))])
  else if s = "good2".data then
    Except.ok (Json.jobj [("kind".data, Json.jstr ("auto_reply".data)),
      ("when".data, Json.jstr ("a".data)),
      ("message".data, Json.jstr ("hi".data))])
  else if s = "bad".data then
    Except.ok (Json.jobj [("kind".data, Json.jstr ("auto_reply".data)),
      ("when".data, Json.jstr ("(".data)),
      ("message".data, Json.jstr ("x".data))])
  else Except.error ()

/-- A toy regex engine: the pattern `"("` throws on compilation (as the real
`new RegExp` does); the pattern `"a"` matches exactly the subject `"a"`
with the full match as sole entry. -/
def engToy : RegexEngine := fun p =>
  if p = "(".data then none
  else if p = "a".data then
    some (fun t => if t = "a".data then some [some ("a".data)] else none)
  else none

/-- A message reading `"a"` from a sender with no handle, displayed as
`Alice`. -/
def msgAlice : TgMsg := ⟨"a".data, none, "Alice".data⟩

/-- Witness for `unparsable_row_is_transparent`: a junk row between two
parseable rows changes nothing, and both remaining rows still reply. -/
theorem unparsable_row_is_transparent_witness :
    runAutoReply jpToy engToy msgAlice
        (["good".data] ++ "junk".data :: ["good2".data])
      = runAutoReply jpToy engToy msgAlice (["good".data] ++ ["good2".data])
    ∧ runAutoReply jpToy engToy msgAlice (["good".data] ++ ["good2".data])
      = (["@Alice".data, "hi".data], none) :=
  ⟨unparsable_row_is_transparent jpToy engToy msgAlice
      ["good".data] ("junk".data) ["good2".data] rfl, rfl⟩

/-- C2 counterexample.  A stored rule whose pattern fails to compile crashes
the evaluation of the other rules of its chat: with the errored rule first,
the following rule — which alone would match and reply — produces nothing
and the `RegExp` error escapes the handler. -/
theorem bad_pattern_crashes_other_rules_counterexample :
    runAutoReply jpToy engToy msgAlice ["bad".data, "good".data] = ([], some ())
    ∧ runAutoReply jpToy engToy msgAlice ["good".data] = (["@Alice".data], none) :=
  ⟨rfl, rfl⟩

/-- C2 amended.  A rule whose pattern fails to compile as a regex throws out
of the AUTO REPLY loop: the rows stored before it are still evaluated and
their replies delivered, but no row after it is evaluated, and the error
escapes the handler. -/
theorem bad_pattern_throws_stopping_later_rules (jp : Str → Except Unit Json)
    (eng : RegexEngine) (m : TgMsg) (pre : List Str) (v : Str)
    (rest : List Str) (rule : AutoReply)
    (h1 : safeJsonParse jp v = some rule)
    (h2 : eng rule.whenPat = none)
    (h3 : (runAutoReply jp eng m pre).2 = none) :
    runAutoReply jp eng m (pre ++ v :: rest)
      = ((runAutoReply jp eng m pre).1, some ()) := by
  induction pre with
  | nil => simp only [List.nil_append, runAutoReply, h1, h2]
  | cons w pre' ih =>
    cases hw : safeJsonParse jp w with
    | none =>
      have h3' : (runAutoReply jp eng m pre').2 = none := by
        simpa only [runAutoReply, hw] using h3
      simp only [List.cons_append, runAutoReply, hw]
      exact ih h3'
    | some rule' =>
      cases he : eng rule'.whenPat with
      | none =>
        exfalso
        have : (runAutoReply jp eng m (w :: pre')).2 = some () := by
          simp only [runAutoReply, hw, he]
        rw [h3] at this
        exact Option.noConfusion this
      | some matcher =>
        cases hm : (if m.text ≠ [] then matcher m.text else none) with
        | none =>
          have h3' : (runAutoReply jp eng m pre').2 = none := by
            simpa only [runAutoReply, hw, he, hm] using h3
          simp only [List.cons_append, runAutoReply, hw, he, hm]
          exact ih h3'
        | some groups =>
          have h3' : (runAutoReply jp eng m pre').2 = none := by
            simpa only [runAutoReply, hw, he, hm] using h3
          simp only [List.cons_append, runAutoReply, hw, he, hm, List.append_eq]
          rw [ih h3']

/-- Witness for `bad_pattern_throws_stopping_later_rules` at a concrete
store: the rule before the errored one still replies, the one after it is
dead, and the error escapes. -/
theorem bad_pattern_throws_stopping_later_rules_witness :
    runAutoReply jpToy engToy msgAlice
        (["good".data] ++ "bad".data :: ["good2".data])
      = ((runAutoReply jpToy engToy msgAlice ["good".data]).1, some ())
    ∧ ((runAutoReply jpToy engToy msgAlice ["good".data]).1, (some () : Option Unit))
      = (["@Alice".data], some ()) :=
  ⟨bad_pattern_throws_stopping_later_rules jpToy engToy msgAlice
      ["good".data] ("bad".data) ["good2".data] ⟨"(".data, "x".data⟩ rfl rfl rfl,
    rfl⟩

end AiTgBot

namespace AiTgBot

/-- Executable side condition: every row of the store either fails to parse
or carries a pattern the regex engine compiles. -/
def rowsAllCompile (jp : Str → Except Unit Json) (eng : RegexEngine)
    (rows : List Str) : Bool :=
  rows.all (fun v =>
    match safeJsonParse jp v with
    | none => true
    | some rule => (eng rule.whenPat).isSome)

/-- C8 counterexample.  As universally stated the claim fails: among
successfully parsed rules, one whose pattern does not compile aborts the
loop, so a later parsed rule that matches the message fires no reply —
whereas the same rule alone does fire. -/
theorem matching_rule_fails_to_fire_counterexample :
    (runAutoReply jpToy engToy msgAlice ["bad".data, "good2".data]).1 = []
    ∧ (runAutoReply jpToy engToy msgAlice ["good2".data]).1 = ["hi".data] :=
  ⟨rfl, rfl⟩

/-- C8 amended.  Provided every parsed rule's pattern compiles, the AUTO
REPLY handler evaluates every stored row independently and in storage order:
the reply list is exactly the per-row contributions (`replyOf`, computed
from each row alone), so every matching rule fires — there is no
first-match-wins short-circuit and several replies may be sent for one
incoming message — and no error escapes. -/
theorem every_matching_rule_fires (jp : Str → Except Unit Json)
    (eng : RegexEngine) (m : TgMsg) (rows : List Str)
    (h : rowsAllCompile jp eng rows = true) :
    runAutoReply jp eng m rows = (rows.filterMap (replyOf jp eng m), none) := by
  induction rows with
  | nil => rfl
  | cons v rest ih =>
    rw [rowsAllCompile, List.all_cons, Bool.and_eq_true] at h
    obtain ⟨hv, hrest⟩ := h
    have hrest' : rowsAllCompile jp eng rest = true := hrest
    cases hw : safeJsonParse jp v with
    | none =>
      simp only [runAutoReply, hw, List.filterMap_cons, replyOf]
      exact ih hrest'
    | some rule =>
      rw [hw] at hv
      have hv' : (eng rule.whenPat).isSome = true := hv
      cases he : eng rule.whenPat with
      | none => rw [he] at hv'; simp at hv'
      | some matcher =>
        cases hm : (if m.text ≠ [] then matcher m.text else none) with
        | none =>
          simp only [runAutoReply, hw, he, hm, List.filterMap_cons, replyOf]
          exact ih hrest'
        | some groups =>
          simp only [runAutoReply, hw, he, hm, List.filterMap_cons, replyOf]
          rw [ih hrest']

/-- Witness for `every_matching_rule_fires`: two stored rules both match one
incoming message and both fire, in storage order. -/
theorem every_matching_rule_fires_witness :
    runAutoReply jpToy engToy msgAlice ["good".data, "good2".data]
      = (["good".data, "good2".data].filterMap (replyOf jpToy engToy msgAlice),
        none)
    ∧ runAutoReply jpToy engToy msgAlice ["good".data, "good2".data]
      = (["@Alice".data, "hi".data], none) :=
  ⟨every_matching_rule_fires jpToy engToy msgAlice
      ["good".data, "good2".data] (by decide), rfl⟩

end AiTgBot

namespace AiTgBot

/-- The empty subject is left unchanged. -/
theorem replaceAll_nil (pat repl : Str) : replaceAll pat repl [] = [] := rfl

/-- A head character that cannot start the (dollar-headed) pattern is copied
unchanged. -/
theorem replaceAll_dollar_cons_ne (ps repl : Str) (c : Char) (hc : c ≠ '$')
    (s : Str) :
    replaceAll ('$' :: ps) repl (c :: s) = c :: replaceAll ('$' :: ps) repl s := by
  rw [replaceAll_cons, if_neg]
  rintro ⟨-, habs⟩
  rw [List.length_cons, List.take_succ_cons] at habs
  injection habs with h1 _
  exact hc h1

/-- A dollar-free piece of the subject passes through the `"$username"`
replacement unchanged. -/
theorem replaceAll_append_no_dollar (ps repl s t : Str) (hs : '$' ∉ s) :
    replaceAll ('$' :: ps) repl (s ++ t) = s ++ replaceAll ('$' :: ps) repl t := by
  induction s with
  | nil => simp
  | cons c s' ih =>
    have hc : c ≠ '$' := by
      rintro rfl
      exact hs (List.mem_cons_self _ _)
    have hs' : '$' ∉ s' := fun hmem => hs (List.mem_cons_of_mem _ hmem)
    rw [List.cons_append, replaceAll_dollar_cons_ne ps repl c hc (s' ++ t), ih hs',
      List.cons_append]

/-- A subject starting with the (non-empty) pattern gets the replacement
inserted, with the scan continuing after the match. -/
theorem replaceAll_head_match (pat repl t : Str) (hp : pat ≠ []) :
    replaceAll pat repl (pat ++ t) = repl ++ replaceAll pat repl t := by
  obtain ⟨c, ps, rfl⟩ := List.exists_cons_of_ne_nil hp
  have hcond : (c :: ps ≠ []) ∧ (c :: (ps ++ t)).take (c :: ps).length = c :: ps := by
    constructor
    · exact List.cons_ne_nil c ps
    · rw [List.length_cons, List.take_succ_cons, List.take_left]
  rw [List.cons_append, replaceAll_cons, if_pos hcond]
  congr 1
  rw [List.length_cons, List.drop_succ_cons, List.drop_left]

/-- C7 counterexample.  For a sender without a handle, the code substitutes
`"@" + first_name` for `$username`, not the bare display name the claim
states: the delivered reply is `"@Alice"`, which differs from `"Alice"`. -/
theorem username_substitution_counterexample :
    runAutoReply jpToy engToy msgAlice ["good".data] = (["@Alice".data], none)
    ∧ ("@Alice".data : Str) ≠ "Alice".data :=
  ⟨rfl, by decide⟩

/-- C7 amended.  When a stored rule parses, its pattern compiles, and it
matches the incoming text with match array `[whole, g1]`, the delivered
reply is the template with `$1` replaced by capture group 1, the missing
group `$2` replaced by the empty string, and `$username` replaced by `"@"`
followed by the sender's handle — or, absent a (non-empty) handle, by `"@"`
followed by the sender's display name (the `@` sign is prepended in both
cases, which is where the original claim fails). -/
theorem matched_rule_reply_substitution (jp : Str → Except Unit Json)
    (eng : RegexEngine) (matcher : Str → Option (List (Option Str)))
    (v w text whole g1 name : Str) (uopt : Option Str)
    (h1 : safeJsonParse jp v = some ⟨w, "$1-$2-$username".data⟩)
    (h2 : eng w = some matcher)
    (h3 : text ≠ [])
    (h4 : matcher text = some [some whole, some g1])
    (h5 : '$' ∉ g1) :
    runAutoReply jp eng ⟨text, uopt, name⟩ [v]
      = ([g1 ++ "--@".data ++ handleOf ⟨text, uopt, name⟩], none) := by
  have hrun : runAutoReply jp eng ⟨text, uopt, name⟩ [v]
      = ([renderReply ⟨text, uopt, name⟩ ("$1-$2-$username".data)
            [some whole, some g1]], none) := by
    simp only [runAutoReply, h1, h2]
    rw [if_pos h3, h4]
  rw [hrun]
  have hsub : substGroups [some whole, some g1] ("$1-$2-$username".data)
      = g1 ++ "--$username".data := rfl
  simp only [renderReply, hsub, replaceMessage]
  have hskip : replaceAll ("$username".data) ('@' :: handleOf ⟨text, uopt, name⟩)
      (g1 ++ "--$username".data)
      = g1 ++ replaceAll ("$username".data) ('@' :: handleOf ⟨text, uopt, name⟩)
          ("--$username".data) :=
    replaceAll_append_no_dollar ("username".data) _ g1 ("--$username".data) h5
  have e1 : replaceAll ("$username".data) ('@' :: handleOf ⟨text, uopt, name⟩)
      ("--$username".data)
      = '-' :: replaceAll ("$username".data) ('@' :: handleOf ⟨text, uopt, name⟩)
          ("-$username".data) :=
    replaceAll_dollar_cons_ne ("username".data) _ '-' (by decide) ("-$username".data)
  have e2 : replaceAll ("$username".data) ('@' :: handleOf ⟨text, uopt, name⟩)
      ("-$username".data)
      = '-' :: replaceAll ("$username".data) ('@' :: handleOf ⟨text, uopt, name⟩)
          ("$username".data) :=
    replaceAll_dollar_cons_ne ("username".data) _ '-' (by decide) ("$username".data)
  have e3 : replaceAll ("$username".data) ('@' :: handleOf ⟨text, uopt, name⟩)
      ("$username".data) = '@' :: handleOf ⟨text, uopt, name⟩ := by
    have hm := replaceAll_head_match ("$username".data)
      ('@' :: handleOf ⟨text, uopt, name⟩) [] (by decide)
    simpa [replaceAll_nil] using hm
  rw [hskip, e1, e2, e3]
  simp [List.append_assoc]

/-- A toy JSON parser for the substitution witness: the single row `"r7"`
holds the rule `{when: "w7", message: "$1-$2-$username"}`. -/
def jpToy7 : Str → Except Unit Json := fun s =>
  if s = "r7".data then
    Except.ok (Json.jobj [("kind".data, Json.jstr ("auto_reply".data)),
      ("when".data, Json.jstr ("w7".data)),
      ("message".data, Json.jstr ("$1-$2-$username".data))])
  else Except.error ()

/-- A toy regex engine for the substitution witness: pattern `"w7"` matches
the subject `"hey"` with one capture group `"foo"`. -/
def engToy7 : RegexEngine := fun p =>
  if p = "w7".data then
    some (fun t =>
      if t = "hey".data then some [some ("hey".data), some ("foo".data)]
      else none)
  else none

/-- Witness for `matched_rule_reply_substitution` at a concrete store and
sender without handle: the delivered reply is `"foo--@Alice"`. -/
theorem matched_rule_reply_substitution_witness :
    runAutoReply jpToy7 engToy7 ⟨"hey".data, none, "Alice".data⟩ ["r7".data]
      = (["foo--@Alice".data], none) :=
  (matched_rule_reply_substitution jpToy7 engToy7
    (fun t =>
      if t = "hey".data then some [some ("hey".data), some ("foo".data)]
      else none)
    ("r7".data) ("w7".data) ("hey".data) ("hey".data) ("foo".data)
    ("Alice".data) none rfl rfl (by decide) rfl (by decide)).trans (by decide)

/-- First test message added to chat 1. -/
def inMsg1 : InMsg := ⟨1, 10, some ⟨7, none, "A".data, none⟩, some ("x".data)⟩

/-- Second test message added to chat 1. -/
def inMsg2 : InMsg := ⟨2, 11, some ⟨7, none, "A".data, none⟩, some ("y".data)⟩

/-- Third test message added to chat 1. -/
def inMsg3 : InMsg := ⟨3, 12, some ⟨7, none, "A".data, none⟩, some ("z".data)⟩

/-- Fourth test message added to chat 1. -/
def inMsg4 : InMsg := ⟨4, 13, some ⟨7, none, "A".data, none⟩, some ("w".data)⟩

/-- C6.  Eviction is indeed strict FIFO (with window 3, after four adds the
cache holds exactly the last three messages), but `setMaxWindow(0)` violates
the claimed invariant: `slice(-0)` is `slice(0)` in JS, so the buffers are
not trimmed and a chat keeps 1 cached message while the effective window is
0 — the cached count exceeds the window. -/
theorem setMaxWindow_zero_keeps_messages :
    (applyOps (emptyCache 3) [CacheOp.add 1 inMsg1, CacheOp.setMax 0]).maxWindow = 0
    ∧ (getMessages (applyOps (emptyCache 3)
        [CacheOp.add 1 inMsg1, CacheOp.setMax 0]) 1).length = 1
    ∧ (getMessages (applyOps (emptyCache 3)
        [CacheOp.add 1 inMsg1, CacheOp.add 1 inMsg2, CacheOp.add 1 inMsg3,
          CacheOp.add 1 inMsg4]) 1).map (fun cm => cm.message_id) = [2, 3, 4] :=
  ⟨rfl, rfl, rfl⟩

end AiTgBot
